import Mathlib

/-!
Shallow embedding of `chessmaster.py`: algebraic-coordinate mapping,
the four chess-piece variants with their legality predicates, piece-level
move execution, and the match registry (`ChessMatch`).  Python exceptions
are modelled with `Except PyErr`; the Python value `False` returned in
place of a tuple is modelled with `Option`.
-/

namespace Chessmaster

/-- Observable Python exception classes raised by the code. -/
inductive PyErr
  | typeError
  | valueError
  | keyError
  | indexError
  deriving DecidableEq, Repr

/-- A zero-based board coordinate pair, as Python ints (arithmetic may go negative). -/
abbrev Coord := Int × Int

/-- A move record `(fromLabel, toLabel, timestamp)`; the wall-clock stamp is abstracted as a `Nat`. -/
abbrev MoveRec := String × String × Nat

/-- The whitespace characters removed by Python 2 `str.strip()`. -/
def pyIsSpace (c : Char) : Bool :=
  c == ' ' || c == '\t' || c == '\n' || c == '\r' || c == '\x0b' || c == '\x0c'

/-- ASCII lowercasing of one character, as Python 2 `str.lower()` does. -/
def pyLowerChar (c : Char) : Char :=
  if 'A' ≤ c ∧ c ≤ 'Z' then Char.ofNat (c.toNat + 32) else c

/-- Python `s.strip()`. -/
def pyStrip (s : String) : String :=
  String.mk (((s.toList.dropWhile pyIsSpace).reverse.dropWhile pyIsSpace).reverse)

/-- Python `s.lower()`. -/
def pyLower (s : String) : String :=
  String.mk (s.toList.map pyLowerChar)

/-- Python `str(s).strip().lower()`, the normalization used throughout the code. -/
def pyNormalize (s : String) : String :=
  pyLower (pyStrip s)

/-- Source line `keys = [x + str(y) for x in 'abcdefgh' for y in range(1, 9)]`. -/
def boardKeys : List String :=
  ("abcdefgh".toList).flatMap fun x =>
    (List.range 8).map fun y => String.mk [x] ++ toString (y + 1)

/-- Source line `values = [(x, y) for x in xrange(8) for y in xrange(8)]`. -/
def boardValues : List Coord :=
  (List.range 8).flatMap fun x => (List.range 8).map fun y => ((x : Int), (y : Int))

/-- Source line `boardmap = dict(zip(keys, values))`. -/
def boardmap : List (String × Coord) :=
  List.zip boardKeys boardValues

/-- Python dict lookup on an association list (keys are unique wherever this is used). -/
def pyDictGet {α β : Type} [DecidableEq α] : List (α × β) → α → Option β
  | [], _ => none
  | (k, v) :: rest, key => if k = key then some v else pyDictGet rest key

/-- Embedding of `ChessPiece.algebraic_to_numeric`: the coordinate for a valid tile, `none` for Python `False`. -/
def algebraic_to_numeric (tile : String) : Option Coord :=
  pyDictGet boardmap (pyNormalize tile)

/-- The piece variants (the base class `ChessPiece` itself is instantiable). -/
inductive Kind
  | base | rook | knight | bishop | king
  deriving DecidableEq, Repr

/-- The class attribute `prefix` of each variant. -/
def Kind.pfx : Kind → String
  | .base => ""
  | .rook => "R"
  | .knight => "N"
  | .bishop => "B"
  | .king => "K"

/-- A chess piece: its variant, current position string, and move history. -/
structure Piece where
  kind : Kind
  position : String
  moves : List MoveRec
  deriving DecidableEq, Repr

/-- Subscripting a Python value expected to be a tuple: `False[0]` raises `TypeError`. -/
def toPair {α : Type} : Option α → Except PyErr α
  | some v => Except.ok v
  | none => Except.error PyErr.typeError

/-- Embedding of `ChessPiece.is_legal_move`: `isinstance(self.algebraic_to_numeric(position), tuple)`. -/
def baseLegal (pos : String) : Except PyErr Bool :=
  Except.ok (algebraic_to_numeric pos).isSome

/-- Embedding of `Rook.is_legal_move`; subscripting an absent coordinate raises `TypeError`. -/
def rookLegal (self : Piece) (pos : String) : Except PyErr Bool := do
  let m ← toPair (algebraic_to_numeric self.position)
  let t ← toPair (algebraic_to_numeric pos)
  pure ((m.1 == t.1 && m.2 != t.2) || (m.1 != t.1 && m.2 == t.2) || (m == t))

/-- Embedding of `Knight.is_legal_move`; the offset list is built first (subscripting `my_piece`),
then membership of `test` is checked, which never raises. -/
def knightLegal (self : Piece) (pos : String) : Except PyErr Bool := do
  let m ← toPair (algebraic_to_numeric self.position)
  let t := algebraic_to_numeric pos
  pure (t == some (m.1 + 1, m.2 + 3) || t == some (m.1 + 1, m.2 - 3) ||
        t == some (m.1 - 1, m.2 + 3) || t == some (m.1 - 1, m.2 - 3) ||
        t == some (m.1 + 3, m.2 + 1) || t == some (m.1 + 3, m.2 - 1) ||
        t == some (m.1 - 3, m.2 + 1) || t == some (m.1 - 3, m.2 - 1) ||
        t == some m)

/-- Python `abs` on an int. -/
def pyAbs (x : Int) : Int := if x < 0 then -x else x

/-- Python 2 lexicographic comparison of int pairs. -/
def tupLt (p q : Coord) : Bool := p.1 < q.1 || (p.1 == q.1 && p.2 < q.2)

/-- Python `min` of two tuples (returns the first argument on ties). -/
def pymin (p q : Coord) : Coord := if tupLt q p then q else p

/-- Python `max` of two tuples (returns the first argument on ties). -/
def pymax (p q : Coord) : Coord := if tupLt p q then q else p

/-- Embedding of `Bishop.is_legal_move`: the sum / min-max formula of the source, verbatim. -/
def bishopLegal (self : Piece) (pos : String) : Except PyErr Bool := do
  let m ← toPair (algebraic_to_numeric self.position)
  let t ← toPair (algebraic_to_numeric pos)
  let dmy := pymin m t
  let dte := pymax m t
  pure ((m.1 + m.2 == t.1 + t.2) || (dte.1 == pyAbs dte.2 - dmy.2) || (m == t))

/-- Python `range(a, b)` over ints. -/
def rangeI (a b : Int) : List Int :=
  (List.range (b - a).toNat).map fun i => a + (i : Int)

/-- Embedding of `King.is_legal_move`: membership of `test` in the 3×3 block around `mypos`. -/
def kingLegal (self : Piece) (pos : String) : Except PyErr Bool := do
  let m ← toPair (algebraic_to_numeric self.position)
  let t := algebraic_to_numeric pos
  pure (((rangeI (m.1 - 1) (m.1 + 2)).flatMap fun x =>
          (rangeI (m.2 - 1) (m.2 + 2)).map fun y => (x, y)).any fun p => t == some p)

/-- Dynamic dispatch of `is_legal_move` on the piece's class. -/
def Piece.isLegalMove (self : Piece) (pos : String) : Except PyErr Bool :=
  match self.kind with
  | .base => baseLegal pos
  | .rook => rookLegal self pos
  | .knight => knightLegal self pos
  | .bishop => bishopLegal self pos
  | .king => kingLegal self pos

/-- Embedding of `ChessPiece.__init__`: normalize, set empty history and the position, then check
`self.is_legal_move` (dynamic dispatch); an illegal start raises `ValueError`, while
a predicate crash propagates as-is. -/
def mkPiece (kind : Kind) (position : String) : Except PyErr Piece :=
  let p := pyNormalize position
  let self : Piece := ⟨kind, p, []⟩
  match self.isLegalMove p with
  | .error e => .error e
  | .ok true => .ok self
  | .ok false => .error .valueError

/-- The Python return value of `ChessPiece.move`: `False` or the list `self.moves`. -/
inductive MoveRet
  | retFalse
  | retMoves (ms : List MoveRec)
  deriving DecidableEq, Repr

/-- Python truthiness of a `ChessPiece.move` return value. -/
def pyTruthy : MoveRet → Bool
  | .retFalse => false
  | .retMoves ms => !ms.isEmpty

/-- Embedding of `ChessPiece.move`: on legality and actual displacement, append the record,
update the position and return the whole `self.moves` list; otherwise `False`. -/
def Piece.move (self : Piece) (pos : String) (t : Nat) : Except PyErr (MoveRet × Piece) :=
  match self.isLegalMove pos with
  | .error e => .error e
  | .ok legal =>
    if legal && (pos != self.position) then
      .ok (.retMoves (self.moves ++ [(self.kind.pfx ++ self.position, self.kind.pfx ++ pos, t)]),
           ⟨self.kind, pos,
            self.moves ++ [(self.kind.pfx ++ self.position, self.kind.pfx ++ pos, t)]⟩)
    else
      .ok (.retFalse, self)

/-- The match registry: the label-to-piece dict and the global log. -/
structure ChessMatch where
  pieces : List (String × Piece)
  log : List MoveRec
  deriving DecidableEq, Repr

/-- Python dict assignment `d[key] = v`: replace in place if present, else append. -/
def dictSet {α β : Type} [DecidableEq α] : List (α × β) → α → β → List (α × β)
  | [], key, v => [(key, v)]
  | (k, w) :: rest, key, v =>
    if k = key then (k, v) :: rest else (k, w) :: dictSet rest key v

/-- Python `d.pop(key)` on a present key: remove the entry. -/
def dictPop {α β : Type} [DecidableEq α] : List (α × β) → α → List (α × β)
  | [], _ => []
  | (k, w) :: rest, key => if k = key then rest else (k, w) :: dictPop rest key

/-- Embedding of `ChessMatch.move`: look the label up (a missing key raises `KeyError`), delegate
to the piece (whose in-place mutation is modelled by writing the returned piece back
at the same key), then on a truthy result re-key the dict and append to the log.
An exception carries the registry state at the raise point. -/
def ChessMatch.move (cm : ChessMatch) (label pos : String) (t : Nat) :
    Except (PyErr × ChessMatch) (Bool × ChessMatch) :=
  match pyDictGet cm.pieces label with
  | none => .error (.keyError, cm)
  | some p =>
    match p.move pos t with
    | .error e => .error (e, cm)
    | .ok (ret, p2) =>
      if pyTruthy ret then
        match pyDictGet (dictSet cm.pieces label p2) label with
        | none => .error (.keyError, ⟨dictSet cm.pieces label p2, cm.log⟩)
        | some mp =>
          match mp.moves.getLast? with
          | none => .error (.indexError, ⟨dictSet cm.pieces label p2, cm.log⟩)
          | some mv =>
            .ok (true, ⟨dictSet (dictPop (dictSet cm.pieces label p2) label) mv.2.1 mp,
                        cm.log ++ [mv]⟩)
      else
        .ok (false, ⟨dictSet cm.pieces label p2, cm.log⟩)

/-- The ten labels of `ChessMatch.reset`. -/
def startLabels : List String :=
  ["Ra1", "Rh1", "Ra8", "Rh8", "Bc1", "Bf1", "Bc8", "Bf8", "Ke1", "Ke8"]

/-- Embedding of `ChessMatch.reset`: construct the ten standard pieces and zip them with labels;
the log is cleared. -/
def resetMatch : Except PyErr ChessMatch := do
  let r1 ← mkPiece .rook "a1"
  let r2 ← mkPiece .rook "h1"
  let r3 ← mkPiece .rook "a8"
  let r4 ← mkPiece .rook "h8"
  let b1 ← mkPiece .bishop "c1"
  let b2 ← mkPiece .bishop "f1"
  let b3 ← mkPiece .bishop "c8"
  let b4 ← mkPiece .bishop "f8"
  let k1 ← mkPiece .king "e1"
  let k2 ← mkPiece .king "e8"
  pure ⟨List.zip startLabels [r1, r2, r3, r4, b1, b2, b3, b4, k1, k2], []⟩

/-- One registry move command applied as a state transition: the resulting registry
state, whether the call returned or raised. -/
def runMove (cm : ChessMatch) (c : String × String × Nat) : ChessMatch :=
  match cm.move c.1 c.2.1 c.2.2 with
  | .ok (_, cm2) => cm2
  | .error (_, cm2) => cm2

/-- The registry invariant: keys pairwise distinct, every key equal to its piece's
prefix concatenated with the piece's position, and every piece stored under exactly
one key. -/
def RegInv (cm : ChessMatch) : Prop :=
  (cm.pieces.map Prod.fst).Nodup ∧
  (∀ kp ∈ cm.pieces, kp.1 = kp.2.kind.pfx ++ kp.2.position) ∧
  (∀ e1 ∈ cm.pieces, ∀ e2 ∈ cm.pieces, e1.2 = e2.2 → e1.1 = e2.1)

/-- The reset registry state, as a concrete value. -/
def resetCM : ChessMatch :=
  ⟨[("Ra1", ⟨.rook, "a1", []⟩), ("Rh1", ⟨.rook, "h1", []⟩),
    ("Ra8", ⟨.rook, "a8", []⟩), ("Rh8", ⟨.rook, "h8", []⟩),
    ("Bc1", ⟨.bishop, "c1", []⟩), ("Bf1", ⟨.bishop, "f1", []⟩),
    ("Bc8", ⟨.bishop, "c8", []⟩), ("Bf8", ⟨.bishop, "f8", []⟩),
    ("Ke1", ⟨.king, "e1", []⟩), ("Ke8", ⟨.king, "e8", []⟩)], []⟩

instance {ε α : Type} [DecidableEq ε] [DecidableEq α] : DecidableEq (Except ε α) := fun a b =>
  match a, b with
  | .ok x, .ok y =>
    if h : x = y then .isTrue (by rw [h]) else .isFalse (fun hc => h (Except.ok.inj hc))
  | .ok _, .error _ => .isFalse (fun hc => Except.noConfusion hc)
  | .error _, .ok _ => .isFalse (fun hc => Except.noConfusion hc)
  | .error e, .error f =>
    if h : e = f then .isTrue (by rw [h]) else .isFalse (fun hc => h (Except.error.inj hc))

/-! ### Association-list (Python dict) lemmas -/

theorem pyDictGet_eq_none_of_not_mem {α β : Type} [DecidableEq α] {m : List (α × β)} {k : α}
    (h : k ∉ m.map Prod.fst) : pyDictGet m k = none := by
  induction m with
  | nil => rfl
  | cons hd tl ih =>
    obtain ⟨k1, v1⟩ := hd
    simp only [List.map_cons, List.mem_cons] at h
    push_neg at h
    simp only [pyDictGet]
    rw [if_neg fun he => h.1 he.symm]
    exact ih h.2

theorem pyDictGet_dictSet_self {α β : Type} [DecidableEq α] (m : List (α × β)) (k : α) (v : β) :
    pyDictGet (dictSet m k v) k = some v := by
  induction m with
  | nil => simp [dictSet, pyDictGet]
  | cons hd tl ih =>
    obtain ⟨k1, v1⟩ := hd
    by_cases h : k1 = k
    · simp [dictSet, pyDictGet, h]
    · simp [dictSet, pyDictGet, h, ih]

theorem pyDictGet_dictSet_ne {α β : Type} [DecidableEq α] (m : List (α × β)) {k k2 : α} (v : β)
    (h : k ≠ k2) : pyDictGet (dictSet m k v) k2 = pyDictGet m k2 := by
  induction m with
  | nil => simp [dictSet, pyDictGet, h]
  | cons hd tl ih =>
    obtain ⟨k1, v1⟩ := hd
    by_cases h1 : k1 = k
    · subst h1
      simp [dictSet, pyDictGet, h]
    · simp [dictSet, h1, pyDictGet, ih]

theorem pyDictGet_dictPop_self {α β : Type} [DecidableEq α] {m : List (α × β)} (k : α)
    (hnd : (m.map Prod.fst).Nodup) : pyDictGet (dictPop m k) k = none := by
  induction m with
  | nil => rfl
  | cons hd tl ih =>
    obtain ⟨k1, v1⟩ := hd
    simp only [List.map_cons, List.nodup_cons] at hnd
    by_cases h1 : k1 = k
    · subst h1
      simp only [dictPop, if_pos rfl]
      exact pyDictGet_eq_none_of_not_mem hnd.1
    · simp [dictPop, h1, pyDictGet, ih hnd.2]

theorem mem_dictSet {α β : Type} [DecidableEq α] {m : List (α × β)} {k : α} {v : β} {x : α × β}
    (h : x ∈ dictSet m k v) : x = (k, v) ∨ x ∈ m := by
  induction m with
  | nil => simpa [dictSet] using h
  | cons hd tl ih =>
    obtain ⟨k1, v1⟩ := hd
    by_cases h1 : k1 = k
    · simp only [dictSet, if_pos h1, List.mem_cons] at h
      rcases h with h | h
      · left
        rw [h, h1]
      · right
        exact List.mem_cons_of_mem _ h
    · simp only [dictSet, if_neg h1, List.mem_cons] at h
      rcases h with h | h
      · right
        exact h ▸ List.mem_cons_self _ _
      · rcases ih h with h2 | h2
        · left; exact h2
        · right; exact List.mem_cons_of_mem _ h2

theorem mem_keys_dictSet {α β : Type} [DecidableEq α] {m : List (α × β)} {k a : α} {v : β}
    (h : a ∈ (dictSet m k v).map Prod.fst) : a = k ∨ a ∈ m.map Prod.fst := by
  rcases List.mem_map.mp h with ⟨x, hx, hax⟩
  rcases mem_dictSet hx with h1 | h1
  · left
    rw [← hax, h1]
  · right
    exact hax ▸ List.mem_map_of_mem _ h1

theorem dictSet_keys_nodup {α β : Type} [DecidableEq α] {m : List (α × β)} (k : α) (v : β)
    (hnd : (m.map Prod.fst).Nodup) : ((dictSet m k v).map Prod.fst).Nodup := by
  induction m with
  | nil => simp [dictSet]
  | cons hd tl ih =>
    obtain ⟨k1, v1⟩ := hd
    simp only [List.map_cons, List.nodup_cons] at hnd
    by_cases h1 : k1 = k
    · simp only [dictSet, if_pos h1, List.map_cons, List.nodup_cons]
      exact ⟨hnd.1, hnd.2⟩
    · simp only [dictSet, if_neg h1, List.map_cons, List.nodup_cons]
      refine ⟨fun hmem => ?_, ih hnd.2⟩
      rcases mem_keys_dictSet hmem with h2 | h2
      · exact h1 h2
      · exact hnd.1 h2

theorem mem_dictPop {α β : Type} [DecidableEq α] {m : List (α × β)} {k : α} {x : α × β}
    (h : x ∈ dictPop m k) : x ∈ m := by
  induction m with
  | nil => simp [dictPop] at h
  | cons hd tl ih =>
    obtain ⟨k1, v1⟩ := hd
    by_cases h1 : k1 = k
    · simp only [dictPop, if_pos h1] at h
      exact List.mem_cons_of_mem _ h
    · simp only [dictPop, if_neg h1, List.mem_cons] at h
      rcases h with h | h
      · exact h ▸ List.mem_cons_self _ _
      · exact List.mem_cons_of_mem _ (ih h)

theorem dictPop_keys_nodup {α β : Type} [DecidableEq α] {m : List (α × β)} (k : α)
    (hnd : (m.map Prod.fst).Nodup) : ((dictPop m k).map Prod.fst).Nodup := by
  induction m with
  | nil => simp [dictPop]
  | cons hd tl ih =>
    obtain ⟨k1, v1⟩ := hd
    simp only [List.map_cons, List.nodup_cons] at hnd
    by_cases h1 : k1 = k
    · simp only [dictPop, if_pos h1]
      exact hnd.2
    · simp only [dictPop, if_neg h1, List.map_cons, List.nodup_cons]
      refine ⟨fun hmem => ?_, ih hnd.2⟩
      rcases List.mem_map.mp hmem with ⟨x, hx, hax⟩
      exact hnd.1 (hax ▸ List.mem_map_of_mem _ (mem_dictPop hx))

theorem dictSet_eq_of_get {α β : Type} [DecidableEq α] {m : List (α × β)} {k : α} {v : β}
    (h : pyDictGet m k = some v) : dictSet m k v = m := by
  induction m with
  | nil => simp [pyDictGet] at h
  | cons hd tl ih =>
    obtain ⟨k1, v1⟩ := hd
    by_cases h1 : k1 = k
    · simp only [pyDictGet, if_pos h1] at h
      simp only [dictSet, if_pos h1]
      injection h with h2
      rw [h2]
    · simp only [pyDictGet, if_neg h1] at h
      simp only [dictSet, if_neg h1]
      rw [ih h]

theorem dictPop_dictSet {α β : Type} [DecidableEq α] (m : List (α × β)) (k : α) (v : β) :
    dictPop (dictSet m k v) k = dictPop m k := by
  induction m with
  | nil => simp [dictSet, dictPop]
  | cons hd tl ih =>
    obtain ⟨k1, v1⟩ := hd
    by_cases h1 : k1 = k
    · simp [dictSet, dictPop, h1]
    · simp [dictSet, dictPop, h1, ih]

/-- Left-cancellation of string concatenation. -/
theorem str_append_cancel_left {s a b : String} (h : s ++ a = s ++ b) : a = b := by
  apply String.ext
  have h2 := congrArg String.data h
  simpa using h2

/-! ### Characterization of `Piece.move` outcomes -/

theorem Piece.move_retMoves {self : Piece} {pos : String} {t : Nat} {ms : List MoveRec}
    {p2 : Piece} (h : self.move pos t = .ok (.retMoves ms, p2)) :
    pos ≠ self.position ∧
    ms = self.moves ++ [(self.kind.pfx ++ self.position, self.kind.pfx ++ pos, t)] ∧
    p2 = ⟨self.kind, pos, ms⟩ := by
  unfold Piece.move at h
  split at h
  · exact absurd h (by simp)
  · split at h
    · rename_i hc
      simp only [Except.ok.injEq, Prod.mk.injEq, MoveRet.retMoves.injEq] at h
      obtain ⟨h1, h2⟩ := h
      refine ⟨?_, h1.symm, ?_⟩
      · exact bne_iff_ne.mp ((Bool.and_eq_true _ _).mp hc).2
      · rw [← h2, h1]
    · simp at h

theorem Piece.move_retFalse {self : Piece} {pos : String} {t : Nat} {p2 : Piece}
    (h : self.move pos t = .ok (.retFalse, p2)) : p2 = self := by
  unfold Piece.move at h
  split at h
  · exact absurd h (by simp)
  · split at h
    · simp at h
    · simp only [Except.ok.injEq, Prod.mk.injEq] at h
      exact h.2.symm

/-! ### Claim theorems -/

/-- C1: the Bishop predicate of the code is not the exact-diagonal predicate the
spec adopts.  A Bishop constructed at `"e3"` rejects the true diagonal move to
`"c1"` (the claim says it is legal); it also rejects `"c2"`; and it accepts the
non-diagonal move `"b6"` to `"c8"`. -/
theorem bishop_diagonal_divergence :
    mkPiece .bishop "e3" = .ok ⟨.bishop, "e3", []⟩ ∧
    Piece.isLegalMove ⟨.bishop, "e3", []⟩ "c1" = .ok false ∧
    Piece.isLegalMove ⟨.bishop, "e3", []⟩ "c2" = .ok false ∧
    Piece.isLegalMove ⟨.bishop, "b6", []⟩ "c8" = .ok true := by
  decide

/-- C2: for a destination that is not a valid square, `Rook.is_legal_move` and
`Bishop.is_legal_move` raise `TypeError` (subscripting the absent coordinate)
instead of returning `False`; the Knight and King variants do return `False`. -/
theorem invalid_destination_raises :
    mkPiece .rook "a1" = .ok ⟨.rook, "a1", []⟩ ∧
    Piece.isLegalMove ⟨.rook, "a1", []⟩ "i9" = .error .typeError ∧
    mkPiece .bishop "c1" = .ok ⟨.bishop, "c1", []⟩ ∧
    Piece.isLegalMove ⟨.bishop, "c1", []⟩ "i9" = .error .typeError ∧
    Piece.isLegalMove ⟨.knight, "a1", []⟩ "i9" = .ok false ∧
    Piece.isLegalMove ⟨.king, "a1", []⟩ "i9" = .ok false := by
  decide

/-- C3: constructing any of the four variants at an invalid square raises
`TypeError` (the variant predicate crashes on the absent coordinate), not the
`ValueError` (`InvalidPositionError`) the constructor is written to raise;
construction at a valid square succeeds with an empty history. -/
theorem invalid_construction_raises_type_error :
    mkPiece .rook "i9" = .error .typeError ∧
    mkPiece .knight "i9" = .error .typeError ∧
    mkPiece .bishop "i9" = .error .typeError ∧
    mkPiece .king "i9" = .error .typeError ∧
    mkPiece .rook "a1" = .ok ⟨.rook, "a1", []⟩ ∧
    mkPiece .knight "e5" = .ok ⟨.knight, "e5", []⟩ := by
  decide

/-- C4 (counterexample): a successful `move` returns the piece's whole `moves`
list, not the single record created for that move: the second successful move of
a King returns a two-element list, which differs from the singleton holding the
new record. -/
theorem move_return_counterexample :
    mkPiece .king "b5" = .ok ⟨.king, "b5", []⟩ ∧
    Piece.move ⟨.king, "b5", []⟩ "b6" 0 =
      .ok (.retMoves [("Kb5", "Kb6", 0)], ⟨.king, "b6", [("Kb5", "Kb6", 0)]⟩) ∧
    Piece.move ⟨.king, "b6", [("Kb5", "Kb6", 0)]⟩ "b7" 1 =
      .ok (.retMoves [("Kb5", "Kb6", 0), ("Kb6", "Kb7", 1)],
           ⟨.king, "b7", [("Kb5", "Kb6", 0), ("Kb6", "Kb7", 1)]⟩) ∧
    MoveRet.retMoves [("Kb5", "Kb6", 0), ("Kb6", "Kb7", 1)] ≠
      MoveRet.retMoves [("Kb6", "Kb7", 1)] := by
  decide

/-- C4 (amended): when `move` succeeds it returns the piece's full move-history
list, whose last element is the Move record created for that move (from-label,
to-label, timestamp), and the piece's stored history and position are updated
accordingly. -/
theorem move_returns_full_history (self : Piece) (pos : String) (t : Nat)
    (ms : List MoveRec) (p2 : Piece)
    (h : self.move pos t = .ok (.retMoves ms, p2)) :
    ms = self.moves ++ [(self.kind.pfx ++ self.position, self.kind.pfx ++ pos, t)] ∧
    ms.getLast? = some (self.kind.pfx ++ self.position, self.kind.pfx ++ pos, t) ∧
    p2.moves = ms ∧ p2.position = pos := by
  obtain ⟨h1, h2, h3⟩ := Piece.move_retMoves h
  refine ⟨h2, ?_, ?_, ?_⟩
  · rw [h2]
    exact List.getLast?_concat _
  · rw [h3]
  · rw [h3]

theorem move_returns_full_history_witness :
    [("Kb5", "Kb6", 0)] = ([] : List MoveRec) ++ [("Kb5", "Kb6", 0)] ∧
    ([("Kb5", "Kb6", 0)] : List MoveRec).getLast? = some ("Kb5", "Kb6", 0) ∧
    (⟨.king, "b6", [("Kb5", "Kb6", 0)]⟩ : Piece).moves = [("Kb5", "Kb6", 0)] ∧
    (⟨.king, "b6", [("Kb5", "Kb6", 0)]⟩ : Piece).position = "b6" :=
  move_returns_full_history ⟨.king, "b5", []⟩ "b6" 0 _ _ (by decide)

/-- On a piece whose stored position is a valid square, every variant's
legality predicate evaluates its own position without raising. -/
theorem isLegalMove_ok_of_valid (self : Piece) {m : Coord}
    (hm : algebraic_to_numeric self.position = some m) :
    ∃ b, self.isLegalMove self.position = .ok b := by
  obtain ⟨k, pos, mv⟩ := self
  dsimp at hm ⊢
  cases k
  · exact ⟨_, rfl⟩
  · unfold Piece.isLegalMove rookLegal
    dsimp only
    rw [hm]
    exact ⟨_, rfl⟩
  · unfold Piece.isLegalMove knightLegal
    dsimp only
    rw [hm]
    exact ⟨_, rfl⟩
  · unfold Piece.isLegalMove bishopLegal
    dsimp only
    rw [hm]
    exact ⟨_, rfl⟩
  · unfold Piece.isLegalMove kingLegal
    dsimp only
    rw [hm]
    exact ⟨_, rfl⟩

/-- C5: calling `move` with the piece's current position string returns `False`
and leaves the piece (position and history) unchanged, for every variant and
every state whose stored position is a valid square. -/
theorem noop_move_rejected (self : Piece) (t : Nat)
    (h : (algebraic_to_numeric self.position).isSome = true) :
    self.move self.position t = .ok (.retFalse, self) := by
  obtain ⟨m, hm⟩ := Option.isSome_iff_exists.mp h
  obtain ⟨b, hleg⟩ := isLegalMove_ok_of_valid self hm
  unfold Piece.move
  rw [hleg]
  simp

theorem noop_move_rejected_witness :
    Piece.move ⟨.king, "b5", []⟩ "b5" 0 = .ok (.retFalse, ⟨.king, "b5", []⟩) :=
  noop_move_rejected ⟨.king, "b5", []⟩ 0 (by decide)

/-- C10: the piece-level move does not normalize its destination: a Rook at
`"e4"` asked to move to `"E4"` is not rejected by the no-op guard (the raw
strings differ); the move succeeds and stores the destination verbatim, both as
the new position and inside the recorded labels. -/
theorem move_destination_unnormalized (t : Nat) :
    mkPiece .rook "e4" = .ok ⟨.rook, "e4", []⟩ ∧
    Piece.move ⟨.rook, "e4", []⟩ "E4" t =
      .ok (.retMoves [("Re4", "RE4", t)], ⟨.rook, "E4", [("Re4", "RE4", t)]⟩) := by
  constructor
  · decide
  · rfl

theorem move_destination_unnormalized_witness :
    mkPiece .rook "e4" = .ok ⟨.rook, "e4", []⟩ ∧
    Piece.move ⟨.rook, "e4", []⟩ "E4" 0 =
      .ok (.retMoves [("Re4", "RE4", 0)], ⟨.rook, "E4", [("Re4", "RE4", 0)]⟩) :=
  move_destination_unnormalized 0

/-- C7: asking the registry to move a label it does not hold raises `KeyError`
(`UnknownPieceError`) before any state change: the piece mapping and the log
carried at the raise point are exactly the initial ones. -/
theorem unknown_piece_error (cm : ChessMatch) (label pos : String) (t : Nat)
    (h : pyDictGet cm.pieces label = none) :
    cm.move label pos t = .error (.keyError, cm) := by
  unfold ChessMatch.move
  rw [h]

theorem unknown_piece_error_witness :
    ChessMatch.move resetCM "Qz9" "a1" 0 = .error (.keyError, resetCM) :=
  unknown_piece_error resetCM "Qz9" "a1" 0 (by decide)

/-- C6: in a registry whose keys are distinct and whose looked-up entry obeys the
key invariant, a successful `move` removes the old label, stores the same piece
(now moved, with its history extended by exactly the new record) under
prefix+destination, appends exactly that record to the log and returns true;
when the piece reports no legal move, the registry is unchanged and the call
returns false. -/
theorem registry_move_rekeys (cm cm2 : ChessMatch) (L dest : String) (t : Nat) (p : Piece)
    (b : Bool)
    (hp : pyDictGet cm.pieces L = some p)
    (hkey : L = p.kind.pfx ++ p.position)
    (hnd : (cm.pieces.map Prod.fst).Nodup)
    (hmv : cm.move L dest t = .ok (b, cm2)) :
    (b = true →
      pyDictGet cm2.pieces L = none ∧
      pyDictGet cm2.pieces (p.kind.pfx ++ dest) =
        some ⟨p.kind, dest, p.moves ++ [(L, p.kind.pfx ++ dest, t)]⟩ ∧
      cm2.log = cm.log ++ [(L, p.kind.pfx ++ dest, t)]) ∧
    (b = false → cm2 = cm) := by
  unfold ChessMatch.move at hmv
  split at hmv
  · exact absurd hmv (by simp)
  · rename_i q hq
    rw [hp] at hq
    injection hq with hq2
    subst hq2
    split at hmv
    · exact absurd hmv (by simp)
    · rename_i ret p2 hpm
      split at hmv
      · rename_i hT
        cases ret with
        | retFalse => simp [pyTruthy] at hT
        | retMoves ms =>
          obtain ⟨hne, hms, hp2⟩ := Piece.move_retMoves hpm
          split at hmv
          · rename_i hl2
            rw [pyDictGet_dictSet_self] at hl2
            exact absurd hl2 (by simp)
          · rename_i mp hl2
            rw [pyDictGet_dictSet_self] at hl2
            injection hl2 with hl3
            subst hl3
            split at hmv
            · rename_i hlast
              rw [hp2] at hlast
              simp only [hms, List.getLast?_concat] at hlast
              simp at hlast
            · rename_i mv hlast
              rw [hp2] at hlast
              simp only [hms, List.getLast?_concat] at hlast
              injection hlast with hlast2
              subst hlast2
              simp only [Except.ok.injEq, Prod.mk.injEq] at hmv
              obtain ⟨hb, hcm2⟩ := hmv
              subst hb
              subst hcm2
              have hLne : L ≠ p.kind.pfx ++ dest := by
                rw [hkey]
                intro heq
                exact hne (str_append_cancel_left heq).symm
              refine ⟨fun _ => ⟨?_, ?_, ?_⟩, fun hfalse => by simp at hfalse⟩
              · rw [pyDictGet_dictSet_ne _ _ (Ne.symm hLne), dictPop_dictSet]
                exact pyDictGet_dictPop_self L hnd
              · rw [pyDictGet_dictSet_self, hp2, hms, hkey]
              · rw [hkey]
      · rename_i hT
        cases ret with
        | retMoves ms =>
          obtain ⟨hne, hms, hp2⟩ := Piece.move_retMoves hpm
          rw [hms] at hT
          simp [pyTruthy] at hT
        | retFalse =>
          have hp2 := Piece.move_retFalse hpm
          subst hp2
          simp only [Except.ok.injEq, Prod.mk.injEq] at hmv
          obtain ⟨hb, hcm2⟩ := hmv
          subst hb
          refine ⟨fun htrue => by simp at htrue, fun _ => ?_⟩
          rw [← hcm2, dictSet_eq_of_get hp]

theorem registry_move_rekeys_witness :
    (true = true →
      pyDictGet (ChessMatch.mk
        [("Rh1", ⟨.rook, "h1", []⟩), ("Ra8", ⟨.rook, "a8", []⟩), ("Rh8", ⟨.rook, "h8", []⟩),
         ("Bc1", ⟨.bishop, "c1", []⟩), ("Bf1", ⟨.bishop, "f1", []⟩),
         ("Bc8", ⟨.bishop, "c8", []⟩), ("Bf8", ⟨.bishop, "f8", []⟩),
         ("Ke1", ⟨.king, "e1", []⟩), ("Ke8", ⟨.king, "e8", []⟩),
         ("Ra5", ⟨.rook, "a5", [("Ra1", "Ra5", 0)]⟩)]
        [("Ra1", "Ra5", 0)]).pieces "Ra1" = none ∧
      pyDictGet (ChessMatch.mk
        [("Rh1", ⟨.rook, "h1", []⟩), ("Ra8", ⟨.rook, "a8", []⟩), ("Rh8", ⟨.rook, "h8", []⟩),
         ("Bc1", ⟨.bishop, "c1", []⟩), ("Bf1", ⟨.bishop, "f1", []⟩),
         ("Bc8", ⟨.bishop, "c8", []⟩), ("Bf8", ⟨.bishop, "f8", []⟩),
         ("Ke1", ⟨.king, "e1", []⟩), ("Ke8", ⟨.king, "e8", []⟩),
         ("Ra5", ⟨.rook, "a5", [("Ra1", "Ra5", 0)]⟩)]
        [("Ra1", "Ra5", 0)]).pieces "Ra5" =
        some ⟨.rook, "a5", [("Ra1", "Ra5", 0)]⟩ ∧
      (ChessMatch.mk
        [("Rh1", ⟨.rook, "h1", []⟩), ("Ra8", ⟨.rook, "a8", []⟩), ("Rh8", ⟨.rook, "h8", []⟩),
         ("Bc1", ⟨.bishop, "c1", []⟩), ("Bf1", ⟨.bishop, "f1", []⟩),
         ("Bc8", ⟨.bishop, "c8", []⟩), ("Bf8", ⟨.bishop, "f8", []⟩),
         ("Ke1", ⟨.king, "e1", []⟩), ("Ke8", ⟨.king, "e8", []⟩),
         ("Ra5", ⟨.rook, "a5", [("Ra1", "Ra5", 0)]⟩)]
        [("Ra1", "Ra5", 0)]).log = resetCM.log ++ [("Ra1", "Ra5", 0)]) ∧
    (true = false → ChessMatch.mk
        [("Rh1", ⟨.rook, "h1", []⟩), ("Ra8", ⟨.rook, "a8", []⟩), ("Rh8", ⟨.rook, "h8", []⟩),
         ("Bc1", ⟨.bishop, "c1", []⟩), ("Bf1", ⟨.bishop, "f1", []⟩),
         ("Bc8", ⟨.bishop, "c8", []⟩), ("Bf8", ⟨.bishop, "f8", []⟩),
         ("Ke1", ⟨.king, "e1", []⟩), ("Ke8", ⟨.king, "e8", []⟩),
         ("Ra5", ⟨.rook, "a5", [("Ra1", "Ra5", 0)]⟩)]
        [("Ra1", "Ra5", 0)] = resetCM) :=
  registry_move_rekeys resetCM _ "Ra1" "a5" 0 ⟨.rook, "a1", []⟩ true
    (by decide) (by decide) (by decide) (by decide)

/-- One registry step preserves key distinctness and the key formula. -/
theorem next_state_inv (cm : ChessMatch) (L dest : String) (t : Nat)
    (h1 : (cm.pieces.map Prod.fst).Nodup)
    (h2 : ∀ kp ∈ cm.pieces, kp.1 = kp.2.kind.pfx ++ kp.2.position) :
    ((runMove cm (L, dest, t)).pieces.map Prod.fst).Nodup ∧
    (∀ kp ∈ (runMove cm (L, dest, t)).pieces, kp.1 = kp.2.kind.pfx ++ kp.2.position) := by
  cases hlook : pyDictGet cm.pieces L with
  | none =>
    have hst : runMove cm (L, dest, t) = cm := by
      unfold runMove ChessMatch.move
      rw [hlook]
    rw [hst]
    exact ⟨h1, h2⟩
  | some p =>
    cases hpm : p.move dest t with
    | error e =>
      have hst : runMove cm (L, dest, t) = cm := by
        unfold runMove ChessMatch.move
        rw [hlook]
        dsimp only
        rw [hpm]
      rw [hst]
      exact ⟨h1, h2⟩
    | ok rp =>
      obtain ⟨ret, p2⟩ := rp
      cases ret with
      | retFalse =>
        have hp2 := Piece.move_retFalse hpm
        subst hp2
        have hst : runMove cm (L, dest, t) = ⟨dictSet cm.pieces L p2, cm.log⟩ := by
          unfold runMove ChessMatch.move
          rw [hlook]
          dsimp only
          rw [hpm]
          rfl
        rw [hst, dictSet_eq_of_get hlook]
        exact ⟨h1, h2⟩
      | retMoves ms =>
        obtain ⟨hne, hms, hp2⟩ := Piece.move_retMoves hpm
        have hT : pyTruthy (MoveRet.retMoves ms) = true := by
          rw [hms]
          simp [pyTruthy]
        have hlook2 : pyDictGet (dictSet cm.pieces L p2) L = some p2 :=
          pyDictGet_dictSet_self cm.pieces L p2
        have hlast : p2.moves.getLast? =
            some (p.kind.pfx ++ p.position, p.kind.pfx ++ dest, t) := by
          rw [hp2]
          simp only [hms]
          exact List.getLast?_concat _
        have hst : runMove cm (L, dest, t) =
            ⟨dictSet (dictPop (dictSet cm.pieces L p2) L) (p.kind.pfx ++ dest) p2,
             cm.log ++ [(p.kind.pfx ++ p.position, p.kind.pfx ++ dest, t)]⟩ := by
          unfold runMove ChessMatch.move
          rw [hlook]
          dsimp only
          rw [hpm]
          dsimp only
          rw [if_pos hT, hlook2]
          dsimp only
          rw [hlast]
        rw [hst]
        constructor
        · exact dictSet_keys_nodup _ _ (dictPop_keys_nodup _ (dictSet_keys_nodup _ _ h1))
        · intro kp hkp
          rcases mem_dictSet hkp with hk | hk
          · rw [hk, hp2]
          · rw [dictPop_dictSet] at hk
            exact h2 kp (mem_dictPop hk)

/-- C8: every registry state reached from `reset` by any sequence of registry
move commands has pairwise-distinct keys, each key equal to its piece's prefix
concatenated with the piece's current position, and each piece stored under
exactly one key. -/
theorem registry_invariant_reachable (cm0 : ChessMatch)
    (cmds : List (String × String × Nat)) (h0 : resetMatch = .ok cm0) :
    RegInv (cmds.foldl runMove cm0) := by
  have hr : resetMatch = .ok resetCM := by decide
  rw [hr] at h0
  injection h0 with h0eq
  subst h0eq
  suffices h : ∀ (cms : List (String × String × Nat)) (cm : ChessMatch),
      (cm.pieces.map Prod.fst).Nodup →
      (∀ kp ∈ cm.pieces, kp.1 = kp.2.kind.pfx ++ kp.2.position) →
      ((cms.foldl runMove cm).pieces.map Prod.fst).Nodup ∧
      (∀ kp ∈ (cms.foldl runMove cm).pieces, kp.1 = kp.2.kind.pfx ++ kp.2.position) by
    obtain ⟨ha, hb⟩ := h cmds resetCM (by decide) (by decide)
    exact ⟨ha, hb, fun e1 he1 e2 he2 hv => by rw [hb e1 he1, hb e2 he2, hv]⟩
  intro cms
  induction cms with
  | nil =>
    intro cm ha hb
    exact ⟨ha, hb⟩
  | cons c rest ih =>
    intro cm ha hb
    obtain ⟨c1, c2, c3⟩ := c
    simp only [List.foldl_cons]
    have hstep := next_state_inv cm c1 c2 c3 ha hb
    exact ih _ hstep.1 hstep.2

theorem registry_invariant_reachable_witness :
    RegInv (List.foldl runMove resetCM [("Ra1", "a5", 0)]) :=
  registry_invariant_reachable resetCM [("Ra1", "a5", 0)] (by decide)

/-- The keys of the board dictionary are exactly the 64 generated labels. -/
theorem boardmap_keys : boardmap.map Prod.fst = boardKeys :=
  List.map_fst_zip boardKeys boardValues (by decide)

/-- The board dictionary evaluated on its own 64 keys, in order. -/
theorem a2n_on_boardKeys : boardKeys.map algebraic_to_numeric = boardValues.map some := by
  decide

/-- C9 (counterexample): `"E4"` is not one of the 64 algebraic labels (letter
`a`-`h` then digit `1`-`8`) yet `algebraic_to_numeric` does not map it to
absent: the function trims and lowercases its input first. -/
theorem coordinate_counterexample :
    "E4" ∉ boardKeys ∧ algebraic_to_numeric "E4" = some (4, 3) := by
  decide

/-- C9 (amended): restricted to the 64 algebraic labels, `algebraic_to_numeric`
maps every label to a coordinate pair with both components in `[0,8)`, no two
labels share a pair, and every input whose trimmed lowercased form is not one of
the 64 labels yields absent. -/
theorem coordinate_bijection_amended :
    (∀ l ∈ boardKeys, ∃ v : Coord, algebraic_to_numeric l = some v ∧
      0 ≤ v.1 ∧ v.1 < 8 ∧ 0 ≤ v.2 ∧ v.2 < 8) ∧
    List.Pairwise (fun l1 l2 => algebraic_to_numeric l1 ≠ algebraic_to_numeric l2) boardKeys ∧
    (∀ s : String, pyNormalize s ∉ boardKeys → algebraic_to_numeric s = none) := by
  refine ⟨?_, ?_, ?_⟩
  · intro l hl
    have hmem : algebraic_to_numeric l ∈ boardValues.map some := by
      rw [← a2n_on_boardKeys]
      exact List.mem_map_of_mem _ hl
    rcases List.mem_map.mp hmem with ⟨v, hv, hval⟩
    refine ⟨v, hval.symm, ?_⟩
    have hbv : ∀ w ∈ boardValues, 0 ≤ w.1 ∧ w.1 < 8 ∧ 0 ≤ w.2 ∧ w.2 < 8 := by decide
    exact hbv v hv
  · have hpw : (boardKeys.map algebraic_to_numeric).Pairwise (· ≠ ·) := by
      rw [a2n_on_boardKeys]
      decide
    exact List.pairwise_map.mp hpw
  · intro s hs
    unfold algebraic_to_numeric
    apply pyDictGet_eq_none_of_not_mem
    rw [boardmap_keys]
    exact hs

theorem coordinate_bijection_amended_witness : algebraic_to_numeric "zz9" = none :=
  coordinate_bijection_amended.2.2 "zz9" (by decide)

end Chessmaster
